import Mathlib

/-!
Verification of `contracts/test/lifecycle/analyze_sale_scenarios.py`
(loreum-org/token-sale).

The script drives `forge` test scenarios, scrapes their free-text output
with regular expressions, and aggregates the extracted metrics into
pandas DataFrames.  This file shallowly embeds the data path of that
script over `List Char` texts:

* `searchSummary` embeds the `re.search` on the pattern
  `------- TOKEN SALE SUMMARY -------\s*(.*?)------- BONDING CURVE INTEGRITY`
  (with `re.DOTALL`).  The pattern is a literal marker, a greedy
  whitespace run, a lazy gap and a literal close marker, so the match
  semantics are: at the leftmost position where the open marker occurs,
  skip the maximal whitespace run and cut at the first occurrence of
  the close marker; when no close occurrence follows, `re.search`
  retries from the next position.
* `findKVs` embeds the `re.finditer` on `([^:]+):\s*(\d+)`:
  at a match position, `[^:]+` runs greedily up to the first colon (it
  can never cross one), `\s*` is a maximal whitespace run and `\d+` a
  non-empty maximal digit run; no backtracking alternative exists, and
  on failure the scan advances one character.  Matches do not overlap.
* `tryBlock` and `scanPurch` embed the `re.findall` on
  `Purchase #:\s*(\d+)[\r\n\s]*ETH spent:\s*(\d+)[\r\n\s]*Tokens received:\s*(\d+)[\r\n\s]*Current price:\s*(\d+)`:
  literals interleaved with maximal whitespace runs and non-empty
  maximal digit runs (the class `[\r\n\s]` equals `\s`); again no
  backtracking alternative exists.

Character classes model the ASCII range of the Python classes `\s` and
`\d` (every text produced or consumed by the script is ASCII).  The
unbounded Python `int` is modelled by `Nat` (the scraped numbers are
digit runs, hence non-negative).  pandas DataFrames are modelled as
lists of association-list rows; float arithmetic on the converted
columns is modelled by exact rationals, with the pandas division
behaviour on zero divisors (positive over zero gives `inf`, zero over
zero gives NaN, no exception) made explicit in the `PFloat` type.
-/

set_option maxRecDepth 8000

namespace SaleAnalyzer


/-- ASCII fragment of the Python class `\s`: space, tab, newline,
carriage return, vertical tab, form feed. -/
def isWs (c : Char) : Bool :=
  c.toNat = 32 || c.toNat = 9 || c.toNat = 10 || c.toNat = 13 ||
  c.toNat = 11 || c.toNat = 12

/-- ASCII fragment of the Python class `\d`. -/
def isDigit (c : Char) : Bool :=
  48 ≤ c.toNat && c.toNat ≤ 57

/-- Value of one ASCII digit character. -/
def digitVal (c : Char) : Nat := c.toNat - 48

/-- Value of a digit run, as computed by `int(...)` in the source. -/
def digitsToNat (l : List Char) : Nat :=
  l.foldl (fun a c => a * 10 + digitVal c) 0

/-- Decimal digit character for `n < 10`. -/
def digitChar (n : Nat) : Char := Char.ofNat (48 + n)

/-- Decimal rendering helper (`acc` is the already-rendered tail).  The
`fuel` argument only makes the recursion structural, hence reducible by
the kernel; `fuel = n` always suffices because `n / 10 < n`. -/
def natDigitsF : Nat → Nat → List Char → List Char
  | 0, n, acc => digitChar n :: acc
  | fuel + 1, n, acc =>
    if n < 10 then digitChar n :: acc
    else natDigitsF fuel (n / 10) (digitChar (n % 10) :: acc)

/-- Decimal rendering of a natural number. -/
def natDigits (n : Nat) : List Char := natDigitsF n n []

/-- `isPre pat t` holds when `pat` is a prefix of `t` (the literal-match
step of the regex engine). -/
def isPre : List Char → List Char → Bool
  | [], _ => true
  | _ :: _, [] => false
  | a :: as, b :: bs => a == b && isPre as bs

/-- The Python `str.strip()`: remove leading and trailing whitespace. -/
def strip (l : List Char) : List Char :=
  ((l.dropWhile isWs).reverse.dropWhile isWs).reverse

/-- Text before the first occurrence of `pat`, or `none` when `pat` does
not occur (the lazy-gap-then-literal step of the summary regex). -/
def beforeOcc (pat : List Char) : List Char → Option (List Char)
  | [] => if isPre pat [] then some [] else none
  | c :: rest =>
    if isPre pat (c :: rest) then some []
    else (beforeOcc pat rest).map (fun g => c :: g)

/-! Literal fragments of the three regexes. -/

def openMarker : List Char := "------- TOKEN SALE SUMMARY -------".data

def closeMarker : List Char := "------- BONDING CURVE INTEGRITY".data

def purchMarker : List Char := "Purchase #:".data

def ethMarker : List Char := "ETH spent:".data

def tokensMarker : List Char := "Tokens received:".data

def priceMarker : List Char := "Current price:".data

/-- Embeds the `re.search` locating the summary block: at each position
in turn, match the open marker, skip the maximal whitespace run, and
return the text up to the first occurrence of the close marker; when no
close occurrence follows, retry from the next position. -/
def searchSummary : List Char → Option (List Char)
  | [] => none
  | c :: rest =>
    if isPre openMarker (c :: rest) then
      match beforeOcc closeMarker
          (((c :: rest).drop openMarker.length).dropWhile isWs) with
      | some g => some g
      | none => searchSummary rest
    else searchSummary rest

/-- One attempted match of `([^:]+):\s*(\d+)` at the head of `t`:
`[^:]+` runs exactly up to the first colon and must be non-empty, then
maximal whitespace, then a non-empty maximal digit run.  Returns the
stripped key (`match.group(1).strip()` in the source), the integer
value and the remainder of the text after the match. -/
def tryKV (t : List Char) : Option (List Char × Nat × List Char) :=
  let pre := t.takeWhile (fun c => c != ':')
  if pre.length = 0 then none
  else
    match t.drop pre.length with
    | [] => none
    | _ :: afterColon =>
      let afterWs := afterColon.dropWhile isWs
      let ds := afterWs.takeWhile isDigit
      if ds.length = 0 then none
      else some (strip pre, digitsToNat ds, afterWs.drop ds.length)

/-- Fuelled scan behind `findKVs` (fuel only makes the recursion
structural; `fuel = t.length` always suffices because each step strictly
shortens the text). -/
def findKVsF : Nat → List Char → List (List Char × Nat)
  | 0, _ => []
  | _fuel + 1, [] => []
  | fuel + 1, c :: rest =>
    match tryKV (c :: rest) with
    | some (k, v, rem) => (k, v) :: findKVsF fuel rem
    | none => findKVsF fuel rest

/-- Embeds the `re.finditer` over the summary text: non-overlapping
matches of `([^:]+):\s*(\d+)`, scanning left to right and advancing one
character on failure. -/
def findKVs (t : List Char) : List (List Char × Nat) :=
  findKVsF t.length t

/-- A scraped purchase event: the four groups of one purchase-block
match (all non-negative integers in the source format). -/
structure Purchase where
  purchase_num : Nat
  eth_spent : Nat
  tokens_received : Nat
  current_price : Nat
deriving DecidableEq, Repr

/-- Literal-match step: consume `lit` from the head of `t`. -/
def eat (lit t : List Char) : Option (List Char) :=
  if isPre lit t then some (t.drop lit.length) else none

/-- Non-empty maximal digit run (a `(\d+)` group). -/
def grabDigits (t : List Char) : Option (Nat × List Char) :=
  let ds := t.takeWhile isDigit
  if ds.length = 0 then none else some (digitsToNat ds, t.drop ds.length)

/-- One attempted match of the purchase-block regex at the head of `t`:
four literals, each followed by maximal whitespace and a non-empty
digit run, with maximal whitespace between the groups. -/
def tryBlock (t : List Char) : Option (Purchase × List Char) :=
  (eat purchMarker t).bind fun r1 =>
  (grabDigits (r1.dropWhile isWs)).bind fun nr2 =>
  (eat ethMarker (nr2.2.dropWhile isWs)).bind fun r3 =>
  (grabDigits (r3.dropWhile isWs)).bind fun er4 =>
  (eat tokensMarker (er4.2.dropWhile isWs)).bind fun r5 =>
  (grabDigits (r5.dropWhile isWs)).bind fun tr6 =>
  (eat priceMarker (tr6.2.dropWhile isWs)).bind fun r7 =>
  (grabDigits (r7.dropWhile isWs)).bind fun pr8 =>
  some (⟨nr2.1, er4.1, tr6.1, pr8.1⟩, pr8.2)

/-- Fuelled scan behind `scanPurch` (fuel only makes the recursion
structural; `fuel = t.length` always suffices because each step strictly
shortens the text). -/
def scanPurchF : Nat → List Char → List Purchase
  | 0, _ => []
  | _fuel + 1, [] => []
  | fuel + 1, c :: rest =>
    match tryBlock (c :: rest) with
    | some (p, rem) => p :: scanPurchF fuel rem
    | none => scanPurchF fuel rest

/-- Embeds the `re.findall` over the full raw output: non-overlapping
purchase-block matches, scanning left to right and advancing one
character on failure. -/
def scanPurch (t : List Char) : List Purchase :=
  scanPurchF t.length t

/-- A summary metrics mapping: insertion-ordered association list with
the Python dict update semantics. -/
abbrev Dict : Type := List (List Char × Nat)

/-- The Python dict assignment `d[k] = v`: overwrite in place when the
key exists (keeping its position), append otherwise. -/
def dictInsert (d : Dict) (k : List Char) (v : Nat) : Dict :=
  if k ∈ d.map Prod.fst then
    d.map (fun kv => if kv.1 = k then (kv.1, v) else kv)
  else d ++ [(k, v)]

/-- Keys of a metrics mapping, in insertion order. -/
def dictKeys (d : Dict) : List (List Char) := d.map Prod.fst

/-- Lookup in a metrics mapping. -/
def dictFind (d : Dict) (k : List Char) : Option Nat :=
  (d.find? (fun kv => kv.1 = k)).map Prod.snd

/-- The Python `d.get(k, dflt)`. -/
def dictGet (d : Dict) (k : List Char) (dflt : Nat) : Nat :=
  (dictFind d k).getD dflt

/-- Builds the `metrics` dict of `parse_test_output`: the key-value
matches are inserted in match order with last-wins overwrite. -/
def buildDict (l : List (List Char × Nat)) : Dict :=
  l.foldl (fun d kv => dictInsert d kv.1 kv.2) []

/-- Result of `parse_test_output`: the summary metrics dict and the
purchase records, in text order. -/
structure ParseResult where
  summary : Dict
  purchases : List Purchase
deriving DecidableEq

/-- Embeds `BondingCurveSaleAnalyzer.parse_test_output` (lines 42 to 99
of the source): locate the summary block with the summary regex and
return `None` when it is absent; scrape `label: integer` pairs from the
block into a dict (last wins); scrape purchase blocks from the full
output.  An empty purchase list is returned as an empty list, not as a
failure. -/
def parse_test_output (output : List Char) : Option ParseResult :=
  match searchSummary output with
  | none => none
  | some summary_text => some ⟨buildDict (findKVs summary_text), scanPurch output⟩

/-! ### Canonical well-formed raw texts

The extraction-correctness claims quantify over raw texts containing a
well-formed summary block and well-formed purchase blocks; the
renderers below produce exactly such texts from structured data, so the
claims become statements about `parse_test_output` after rendering. -/

/-- One summary line `label: value` followed by a newline. -/
def renderLine (kv : List Char × Nat) : List Char :=
  kv.1 ++ ':' :: ' ' :: (natDigits kv.2 ++ ['\n'])

/-- The summary lines, in order. -/
def renderLines : List (List Char × Nat) → List Char
  | [] => []
  | kv :: rest => renderLine kv ++ renderLines rest

/-- The full closing marker line as printed by the harness (the regex
only requires its prefix `closeMarker`). -/
def closeLine : List Char := "------- BONDING CURVE INTEGRITY -------\n".data

/-- One well-formed four-line purchase block. -/
def renderBlock (p : Purchase) : List Char :=
  purchMarker ++ ' ' :: (natDigits p.purchase_num ++
  '\n' :: (ethMarker ++ ' ' :: (natDigits p.eth_spent ++
  '\n' :: (tokensMarker ++ ' ' :: (natDigits p.tokens_received ++
  '\n' :: (priceMarker ++ ' ' :: (natDigits p.current_price ++ ['\n'])))))))

/-- The purchase blocks, in order. -/
def renderBlocks : List Purchase → List Char
  | [] => []
  | p :: rest => renderBlock p ++ renderBlocks rest

/-- Everything before the purchase blocks: the summary block bounded by
its two markers. -/
def renderHead (pairs : List (List Char × Nat)) : List Char :=
  openMarker ++ '\n' :: (renderLines pairs ++ closeLine)

/-- A canonical well-formed raw text: a summary block with the given
label-value pairs followed by the given purchase blocks. -/
def renderText (pairs : List (List Char × Nat)) (ts : List Purchase) :
    List Char :=
  renderHead pairs ++ renderBlocks ts

/-! ### The pandas model

Rows are insertion-ordered association lists from column names to
values; a DataFrame built from a list of record dicts also carries its
column set (the union of the record keys in first-appearance order),
because selecting an absent column raises a `KeyError` in pandas. -/

/-- A cell value: the scraped data are strings and Python ints, and the
unit-converted columns are floats, modelled as exact rationals. -/
inductive Val where
  | s (v : List Char)
  | n (v : Nat)
  | q (v : ℚ)
deriving DecidableEq, Repr

/-- A DataFrame row. -/
abbrev Row : Type := List (List Char × Val)

/-- Column assignment on one row: overwrite in place when the column
exists, append otherwise (the pandas `df[c] = ...` semantics). -/
def rowSet : Row → List Char → Val → Row
  | [], name, v => [(name, v)]
  | kv :: rest, name, v =>
    if kv.1 = name then (name, v) :: rest else kv :: rowSet rest name v

/-- Cell lookup on one row. -/
def rowFind (r : Row) (name : List Char) : Option Val :=
  (r.find? (fun kv => kv.1 = name)).map Prod.snd

/-- A parsed scenario result as assembled by `run_scenario_tests`
(lines 113 to 117 of the source): the parse fragment tagged with the
scenario display name and the full raw output. -/
structure ScenResult where
  scenario_name : List Char
  summary : Dict
  purchases : List Purchase
  full_output : List Char
deriving DecidableEq

/-! Column names of the summary table and the summary metric labels
they are populated from (`create_summary_table`, lines 128 to 136). -/

def colScenario : List Char := "Scenario".data

def colInitWei : List Char := "Initial Price (wei)".data

def colFinalWei : List Char := "Final Price (wei)".data

def colPriceInc : List Char := "Price Increase (%)".data

def colTokensSold : List Char := "Tokens Sold".data

def colEthRaised : List Char := "ETH Raised".data

def colAvgPrice : List Char := "Avg Price Per Token (wei)".data

def colInitEth : List Char := "Initial Price (ETH)".data

def colFinalEth : List Char := "Final Price (ETH)".data

def colTokensM : List Char := "Tokens Sold (millions)".data

def lblStarting : List Char := "Starting price".data

def lblFinal : List Char := "Final price".data

def lblPriceInc : List Char := "Price increase (%)".data

def lblTokensSold : List Char := "Tokens sold in sale".data

def lblEthRaised : List Char := "Total ETH raised".data

def lblAvgPrice : List Char := "Effective avg price per token".data

/-- The record built for one scenario (lines 128 to 136): fixed column
set, each metric read with `summary.get(label, 0)`. -/
def summaryRecord (r : ScenResult) : Row :=
  [(colScenario, Val.s r.scenario_name),
   (colInitWei, Val.n (dictGet r.summary lblStarting 0)),
   (colFinalWei, Val.n (dictGet r.summary lblFinal 0)),
   (colPriceInc, Val.n (dictGet r.summary lblPriceInc 0)),
   (colTokensSold, Val.n (dictGet r.summary lblTokensSold 0)),
   (colEthRaised, Val.n (dictGet r.summary lblEthRaised 0)),
   (colAvgPrice, Val.n (dictGet r.summary lblAvgPrice 0))]

/-- The guarded unit conversion `lambda x: x / scale if x else 0`
applied to a cell (lines 142 to 145): a zero int stays the int `0`, a
non-zero int becomes a float, modelled as an exact rational (the
literals 1e18 and 1e6 are exactly the powers 10 to the 18 and 10 to
the 6 as doubles). -/
def convHuman (scale : Nat) (v : Val) : Val :=
  match v with
  | Val.n x => if x = 0 then Val.n 0 else Val.q ((x : ℚ) / (scale : ℚ))
  | v => v

/-- Column read over a plain row list (`df[c].apply(...)` source side).
In `create_summary_table` the column always exists in every row, so the
`.getD` default is never reached there. -/
def getColD (df : List Row) (name : List Char) : List Val :=
  df.map (fun row => (rowFind row name).getD (Val.n 0))

/-- Column write over a plain row list (`df[c] = series`). -/
def setCol (df : List Row) (name : List Char) (vals : List Val) :
    List Row :=
  List.zipWith (fun row v => rowSet row name v) df vals

/-- Embeds `BondingCurveSaleAnalyzer.create_summary_table` (lines 123
to 147): one record per result with the fixed column set and zero
defaults, then the three derived ETH and millions columns are appended
and the `ETH Raised` column is overwritten in place by its own
conversion (line 144 assigns back to the same column name). -/
def create_summary_table (results : List ScenResult) : List Row :=
  let df := results.map summaryRecord
  let df := setCol df colInitEth
    ((getColD df colInitWei).map (convHuman (10 ^ 18)))
  let df := setCol df colFinalEth
    ((getColD df colFinalWei).map (convHuman (10 ^ 18)))
  let df := setCol df colEthRaised
    ((getColD df colEthRaised).map (convHuman (10 ^ 18)))
  let df := setCol df colTokensM
    ((getColD df colTokensSold).map (convHuman (10 ^ 6)))
  df

/-! Column names of the purchase table (`create_purchase_dataframe`,
lines 149 to 166). -/

def keyNum : List Char := "purchase_num".data

def keyEth : List Char := "eth_spent".data

def keyTokens : List Char := "tokens_received".data

def keyPrice : List Char := "current_price".data

def keyScenario : List Char := "scenario".data

def keyEthInEth : List Char := "eth_spent_in_eth".data

def keyTokensM : List Char := "tokens_in_millions".data

def keyPriceEth : List Char := "price_in_eth".data

/-- One purchase record dict tagged with its scenario (purchase copy
plus the `scenario` key appended, lines 154 to 157). -/
def purchaseRow (p : Purchase) (scen : List Char) : Row :=
  [(keyNum, Val.n p.purchase_num),
   (keyEth, Val.n p.eth_spent),
   (keyTokens, Val.n p.tokens_received),
   (keyPrice, Val.n p.current_price),
   (keyScenario, Val.s scen)]

/-- The flattened purchase rows of a result batch, scenario-major, in
order (the nested loops of lines 151 to 157 and 340 to 346). -/
def allPurchaseRows (results : List ScenResult) : List Row :=
  (results.map
    (fun r => r.purchases.map (fun p => purchaseRow p r.scenario_name))).join

/-- A DataFrame: its column set and its rows. -/
structure DataFrame where
  cols : List (List Char)
  rows : List Row
deriving DecidableEq

/-- Column set of a record-dict list, in first-appearance order (what
`pd.DataFrame(list_of_dicts)` infers; the empty list yields a frame
with no columns at all). -/
def colsOf (rs : List Row) : List (List Char) :=
  rs.foldl
    (fun acc row => acc ++ (row.map Prod.fst).filter (fun k => !acc.contains k))
    []

/-- `pd.DataFrame(records)`. -/
def mkDF (rs : List Row) : DataFrame := ⟨colsOf rs, rs⟩

/-- Column selection `df[name]`: raises `KeyError` (modelled as
`Except.error name`) when the column is absent — in particular on the
empty frame built from zero records. -/
def getCol (df : DataFrame) (name : List Char) :
    Except (List Char) (List Val) :=
  if name ∈ df.cols then
    Except.ok (df.rows.map (fun row => (rowFind row name).getD (Val.n 0)))
  else Except.error name

/-- Column assignment `df[name] = vals` on a DataFrame. -/
def setColDF (df : DataFrame) (name : List Char) (vals : List Val) :
    DataFrame :=
  ⟨if name ∈ df.cols then df.cols else df.cols ++ [name],
   List.zipWith (fun row v => rowSet row name v) df.rows vals⟩

/-- The unguarded unit conversion `lambda x: x / scale` applied to a
cell (lines 162 to 164 and 355 to 357). -/
def convDiv (scale : Nat) (v : Val) : Val :=
  match v with
  | Val.n x => Val.q ((x : ℚ) / (scale : ℚ))
  | v => v

/-- Embeds `BondingCurveSaleAnalyzer.create_purchase_dataframe` (lines
149 to 166): build the frame from the flattened purchase rows, then
read and convert the `eth_spent`, `tokens_received` and `current_price`
columns.  Each read is a `df[...]` selection and raises (propagated
here in `Except`) when the column is absent, which happens exactly when
the record list was empty. -/
def create_purchase_dataframe (results : List ScenResult) :
    Except (List Char) DataFrame :=
  let df := mkDF (allPurchaseRows results)
  (getCol df keyEth).bind fun c1 =>
  let df1 := setColDF df keyEthInEth (c1.map (convDiv (10 ^ 18)))
  (getCol df1 keyTokens).bind fun c2 =>
  let df2 := setColDF df1 keyTokensM (c2.map (convDiv (10 ^ 6)))
  (getCol df2 keyPrice).bind fun c3 =>
  Except.ok (setColDF df2 keyPriceEth (c3.map (convDiv (10 ^ 18))))

/-- The purchase-data stage of `main` (lines 340 to 357): `main` builds
the flattened purchase list itself, returns early — producing no
purchase frame and writing no report — when it is empty, and otherwise
builds the frame and applies the same three conversions as
`create_purchase_dataframe` (the loop and conversions of lines 340 to
357 mirror lines 151 to 164 verbatim). -/
def main_purchase_stage (results : List ScenResult) : Option DataFrame :=
  if (allPurchaseRows results).isEmpty then none
  else (create_purchase_dataframe results).toOption

/-! ### The derived tokens-per-ETH column -/

/-- A pandas float cell: a finite value (modelled exactly in ℚ),
positive infinity, or NaN.  The scraped operands are non-negative, so
negative infinity cannot arise. -/
inductive PFloat where
  | fin (q : ℚ)
  | inf
  | nan
deriving DecidableEq, Repr

/-- Elementwise pandas division of two non-negative integer columns:
no exception is raised; a zero divisor yields `inf` for a positive
dividend and NaN only for `0 / 0`. -/
def pandasDiv (a b : Nat) : PFloat :=
  if b = 0 then (if a = 0 then PFloat.nan else PFloat.inf)
  else PFloat.fin ((a : ℚ) / (b : ℚ))

/-- The data effect of `plot_tokens_per_eth` (line 188 of the source):
the derived column
`purchase_df['tokens_per_eth'] = purchase_df['tokens_received'] / purchase_df['eth_spent']`,
one value per purchase row.  The chart rendering itself is out of
scope. -/
def plot_tokens_per_eth (rows : List Purchase) : List PFloat :=
  rows.map (fun r => pandasDiv r.tokens_received r.eth_spent)

/-! ### The scenario runner -/

/-- The result of `subprocess.run(..., capture_output=True)`: the
external process is a black box, so a completed process is the input
of the embedded runner. -/
structure CompletedProcess where
  stdout : List Char
  stderr : List Char
  returncode : Int
deriving DecidableEq

/-- An environment mapping (dict of strings). -/
abbrev Env : Type := List (List Char × List Char)

/-- Environment assignment `env[k] = v` (dict update semantics). -/
def envSet (e : Env) (k v : List Char) : Env :=
  if k ∈ e.map Prod.fst then
    e.map (fun kv => if kv.1 = k then (kv.1, v) else kv)
  else e ++ [(k, v)]

/-- A scenario parameter mapping (string keys, numeric values). -/
abbrev Params : Type := List (List Char × Nat)

/-- Body of the `json.dumps` rendering of a flat string-to-int dict. -/
def jsonPairs : Params → List Char
  | [] => []
  | [kv] => '"' :: (kv.1 ++ '"' :: ':' :: ' ' :: natDigits kv.2)
  | kv :: rest =>
    ('"' :: (kv.1 ++ '"' :: ':' :: ' ' :: natDigits kv.2)) ++
      ',' :: ' ' :: jsonPairs rest

/-- `json.dumps` on a flat string-to-int dict. -/
def jsonDumps (ps : Params) : List Char :=
  Char.ofNat 123 :: (jsonPairs ps ++ [Char.ofNat 125])

/-- The command line built on line 23. -/
def buildCmd (test_name : List Char) : List (List Char) :=
  ["forge".data, "test".data, "--match-test".data, test_name, "-vvv".data]

def profileKey : List Char := "FOUNDRY_PROFILE".data

def profileVal : List Char := "lifecycle".data

def paramsKey : List Char := "TEST_PARAMS".data

/-- The environment passed to the harness (lines 25 to 30): the caller
environment with the profile set, plus the JSON-encoded parameters when
the parameter dict is non-empty (`if params:` is false for an empty
dict). -/
def buildEnv (env0 : Env) (params : Params) : Env :=
  let env := envSet env0 profileKey profileVal
  if params.isEmpty then env else envSet env paramsKey (jsonDumps params)

/-- Embeds `BondingCurveSaleAnalyzer.run_forge_test` (lines 21 to 40):
run the harness synchronously and return `result.stdout` — only the
standard output.  `subprocess.run` without `check=True` never raises on
a non-zero exit status; the source prints the exit code and the
standard error to the console (a side effect outside the data path) and
neither is part of the return value. -/
def run_forge_test (runner : List (List Char) → Env → CompletedProcess)
    (env0 : Env) (test_name : List Char) (params : Params) : List Char :=
  (runner (buildCmd test_name) (buildEnv env0 params)).stdout

/-- A scenario spec dict: the three keys read with `.get` on lines 106
to 108, each possibly absent. -/
structure Scen where
  name : Option (List Char)
  test_name : Option (List Char)
  params : Option Params

def defaultScenName : List Char := "Unnamed Scenario".data

def defaultTestName : List Char := "test_Scenario_EndToEndTokenSale".data

/-- Embeds `BondingCurveSaleAnalyzer.run_scenario_tests` (lines 101 to
121): run each scenario in declared order, parse its output, and append
the tagged result; a scenario whose output does not parse is logged and
skipped, and the loop continues. -/
def run_scenario_tests (runner : List (List Char) → Env → CompletedProcess)
    (env0 : Env) : List Scen → List ScenResult
  | [] => []
  | s :: rest =>
    let output := run_forge_test runner env0
      (s.test_name.getD defaultTestName) (s.params.getD [])
    match parse_test_output output with
    | some d =>
      ⟨s.name.getD defaultScenName, d.summary, d.purchases, output⟩ ::
        run_scenario_tests runner env0 rest
    | none => run_scenario_tests runner env0 rest

/-- First-occurrence deduplication (the key order of a Python dict
built by repeated insertion). -/
def pydedup (l : List (List Char)) : List (List Char) :=
  l.foldl (fun acc k => if k ∈ acc then acc else acc ++ [k]) []

/-- Well-formedness of a summary label as it appears in a rendered
`label: value` line: non-empty, free of colons, and without leading or
trailing whitespace (so that `strip` returns it unchanged). -/
def GoodLabel (l : List Char) : Prop :=
  l ≠ [] ∧ (∀ c ∈ l, (c != ':') = true) ∧
  l.dropWhile isWs = l ∧ l.reverse.dropWhile isWs = l.reverse

instance (l : List Char) : Decidable (GoodLabel l) := by
  unfold GoodLabel
  infer_instance

/-- Closed form of one enriched summary-table row, written out from the
spec: the seven original record columns in construction order — with
the `ETH Raised` cell already unit-converted in place — followed by
the three appended derived columns. -/
def summaryRowSpec (r : ScenResult) : Row :=
  [(colScenario, Val.s r.scenario_name),
   (colInitWei, Val.n (dictGet r.summary lblStarting 0)),
   (colFinalWei, Val.n (dictGet r.summary lblFinal 0)),
   (colPriceInc, Val.n (dictGet r.summary lblPriceInc 0)),
   (colTokensSold, Val.n (dictGet r.summary lblTokensSold 0)),
   (colEthRaised,
     convHuman (10 ^ 18) (Val.n (dictGet r.summary lblEthRaised 0))),
   (colAvgPrice, Val.n (dictGet r.summary lblAvgPrice 0)),
   (colInitEth,
     convHuman (10 ^ 18) (Val.n (dictGet r.summary lblStarting 0))),
   (colFinalEth,
     convHuman (10 ^ 18) (Val.n (dictGet r.summary lblFinal 0))),
   (colTokensM,
     convHuman (10 ^ 6) (Val.n (dictGet r.summary lblTokensSold 0)))]

/-- The fixed column set of the summary table, in final order. -/
def summaryCols : List (List Char) :=
  [colScenario, colInitWei, colFinalWei, colPriceInc, colTokensSold,
   colEthRaised, colAvgPrice, colInitEth, colFinalEth, colTokensM]

/-- The six summary metric labels paired with the table columns they
populate (lines 130 to 135 of the source). -/
def metricCols : List (List Char × List Char) :=
  [(lblStarting, colInitWei), (lblFinal, colFinalWei),
   (lblPriceInc, colPriceInc), (lblTokensSold, colTokensSold),
   (lblEthRaised, colEthRaised), (lblAvgPrice, colAvgPrice)]

/-- A summary section is locatable in `t`: somewhere the open marker
occurs, and the close marker occurs at or after the end of that open
marker (the condition under which the summary regex has a match). -/
def hasSummarySection (t : List Char) : Prop :=
  ∃ i j, isPre openMarker (t.drop i) = true ∧
    isPre closeMarker (t.drop (i + openMarker.length + j)) = true

/-! ### Concrete raw texts used in the concrete claims -/

/-- A raw harness output with the six summary metrics and two purchase
blocks of the concrete-scenario claim. -/
def c2text : List Char :=
  ("Running 1 test for test/lifecycle/TokenSale.t.sol\nLogs:\n  Purchase #: 1\n  ETH spent: 1000\n  Tokens received: 20\n  Current price: 100\n  Purchase #: 2\n  ETH spent: 2000\n  Tokens received: 10\n  Current price: 200\n------- TOKEN SALE SUMMARY -------\nStarting price: 100\nFinal price: 400\nPrice increase (%): 300\nTokens sold in sale: 1000000000000000000000\nTotal ETH raised: 50000000000000000000\nEffective avg price per token: 50\n------- BONDING CURVE INTEGRITY -------\nCheck passed\n").data

/-- A raw text that contains the opening summary marker but no closing
marker at all. -/
def openOnlyText : List Char :=
  ("------- TOKEN SALE SUMMARY -------\nStarting price: 100\n").data

/-- A raw text with a well-formed summary block and zero purchase
blocks. -/
def zeroPurchText : List Char :=
  ("------- TOKEN SALE SUMMARY -------\nStarting price: 100\nFinal price: 400\n------- BONDING CURVE INTEGRITY -------\nAll checks passed\n").data

/-- A raw text whose two purchase blocks both carry the literal number
7 (the harness, not the parser, chooses these numbers). -/
def dupNumText : List Char :=
  ("------- TOKEN SALE SUMMARY -------\nStarting price: 100\n------- BONDING CURVE INTEGRITY -------\nPurchase #: 7\nETH spent: 1\nTokens received: 2\nCurrent price: 3\nPurchase #: 7\nETH spent: 4\nTokens received: 5\nCurrent price: 6\n").data

/-- Witness summary pairs for the rendered-text claims. -/
def wPairs : List (List Char × Nat) :=
  [("Starting price".data, 100), ("Final price".data, 400),
   ("Total ETH raised".data, 50000000000000000000)]

/-- Witness purchases for the rendered-text claims. -/
def wTs : List Purchase :=
  [⟨1, 1000, 20, 100⟩, ⟨2, 2000, 10, 200⟩]

/-- A parsed scenario whose summary reported 2 ETH (in wei) raised. -/
def c5res : ScenResult :=
  ⟨("Standard Sale").data, [(lblEthRaised, 2 * 10 ^ 18)], [], []⟩

/-- A completed harness process with fixed output and the given exit
status. -/
def sampleProc (code : Int) : CompletedProcess :=
  ⟨("some forge output").data, ("error detail").data, code⟩

/-! ### Basic lemmas about the embedded scanning primitives -/

theorem natDigitsF_eq_of_le {f g n : Nat} :
    ∀ {acc : List Char}, n ≤ f → n ≤ g →
      natDigitsF f n acc = natDigitsF g n acc := by
  induction n using Nat.strong_induction_on generalizing f g with
  | _ n ih =>
    intro acc hf hg
    match f, g with
    | 0, 0 => rfl
    | 0, g + 1 =>
      have : n = 0 := by omega
      subst this
      simp [natDigitsF]
    | f + 1, 0 =>
      have : n = 0 := by omega
      subst this
      simp [natDigitsF]
    | f + 1, g + 1 =>
      by_cases hn : n < 10
      · simp [natDigitsF, hn]
      · have hdiv : n / 10 < n :=
          Nat.div_lt_self (by omega) (by omega)
        simp only [natDigitsF, hn, if_false]
        exact ih (n / 10) hdiv (by omega) (by omega)

theorem natDigitsF_append : ∀ (g m : Nat) (acc : List Char),
    natDigitsF g m acc = natDigitsF g m [] ++ acc := by
  intro g
  induction g with
  | zero => intro m acc; rfl
  | succ g ih =>
    intro m acc
    by_cases hm : m < 10
    · simp [natDigitsF, hm]
    · simp only [natDigitsF, hm, if_false]
      rw [ih (m / 10) (digitChar (m % 10) :: acc),
        ih (m / 10) [digitChar (m % 10)], List.append_assoc]
      rfl

/-- The defining recurrence of `natDigits`, fuel eliminated. -/
theorem natDigits_eq (n : Nat) :
    natDigits n =
      if n < 10 then [digitChar n]
      else natDigits (n / 10) ++ [digitChar (n % 10)] := by
  by_cases hn : n < 10
  · simp only [hn, if_true]
    unfold natDigits
    match n, hn with
    | 0, _ => rfl
    | m + 1, hn => simp [natDigitsF, hn]
  · simp only [hn, if_false]
    obtain ⟨f, rfl⟩ : ∃ f, n = f + 1 := ⟨n - 1, by omega⟩
    unfold natDigits
    simp only [natDigitsF, hn, if_false]
    rw [natDigitsF_append]
    congr 1
    exact natDigitsF_eq_of_le (by omega) (Nat.le_refl _)

theorem isPre_length : ∀ {pat t : List Char}, isPre pat t = true →
    pat.length ≤ t.length := by
  intro pat
  induction pat with
  | nil => intro t _; simp
  | cons a as ih =>
    intro t h
    cases t with
    | nil => simp [isPre] at h
    | cons b bs =>
      simp only [isPre, Bool.and_eq_true] at h
      simpa using Nat.succ_le_succ (ih h.2)

theorem length_dropWhile_le (p : Char → Bool) (l : List Char) :
    (l.dropWhile p).length ≤ l.length := by
  induction l with
  | nil => simp
  | cons c t ih =>
    by_cases hc : p c <;> simp [List.dropWhile_cons, hc] <;> omega

theorem tryKV_length {t k : List Char} {v : Nat} {rem : List Char}
    (h : tryKV t = some (k, v, rem)) : rem.length < t.length := by
  unfold tryKV at h
  by_cases h0 : (t.takeWhile (fun c => c != ':')).length = 0
  · simp [h0] at h
  · simp only [h0, if_false] at h
    rcases he : t.drop (t.takeWhile (fun c => c != ':')).length with
        _ | ⟨x, afterColon⟩
    · rw [he] at h; simp at h
    · rw [he] at h
      by_cases hd :
          ((afterColon.dropWhile isWs).takeWhile isDigit).length = 0
      · simp [hd] at h
      · simp only [hd, if_false, Option.some.injEq, Prod.mk.injEq] at h
        have hrem : rem =
            (afterColon.dropWhile isWs).drop
              ((afterColon.dropWhile isWs).takeWhile isDigit).length :=
          h.2.2.symm
        have h1 : rem.length ≤ (afterColon.dropWhile isWs).length := by
          rw [hrem, List.length_drop]; omega
        have h2 : (afterColon.dropWhile isWs).length ≤ afterColon.length :=
          length_dropWhile_le isWs afterColon
        have h3 : afterColon.length < t.length := by
          have hlen := congrArg List.length he
          rw [List.length_drop] at hlen
          simp only [List.length_cons] at hlen
          omega
        omega

theorem findKVsF_eq_of_le : ∀ {f : Nat} {t : List Char} {g : Nat},
    t.length ≤ f → t.length ≤ g → findKVsF f t = findKVsF g t := by
  intro f
  induction f with
  | zero =>
    intro t g hf _
    have : t = [] := by
      cases t with
      | nil => rfl
      | cons c r => simp at hf
    subst this
    cases g <;> rfl
  | succ f ih =>
    intro t g hf hg
    cases t with
    | nil => cases g <;> rfl
    | cons c rest =>
      obtain ⟨g, rfl⟩ : ∃ k, g = k + 1 :=
        ⟨g - 1, by simp at hg; omega⟩
      simp only [findKVsF]
      cases htk : tryKV (c :: rest) with
      | none =>
        have hr : rest.length ≤ f := by simp at hf; omega
        have hr2 : rest.length ≤ g := by simp at hg; omega
        exact ih hr hr2
      | some kvr =>
        obtain ⟨k, v, rem⟩ := kvr
        have hlt := tryKV_length htk
        simp only [List.length_cons] at hlt hf hg
        show (k, v) :: findKVsF f rem = (k, v) :: findKVsF g rem
        rw [ih (by omega) (by omega : rem.length ≤ g)]

/-- The defining recurrence of the key-value scan, fuel eliminated. -/
theorem findKVs_cons (c : Char) (rest : List Char) :
    findKVs (c :: rest) =
      match tryKV (c :: rest) with
      | some (k, v, rem) => (k, v) :: findKVs rem
      | none => findKVs rest := by
  unfold findKVs
  simp only [List.length_cons, findKVsF]
  cases htk : tryKV (c :: rest) with
  | none => rfl
  | some kvr =>
    obtain ⟨k, v, rem⟩ := kvr
    have hlt := tryKV_length htk
    simp only [List.length_cons] at hlt
    show (k, v) :: findKVsF rest.length rem = (k, v) :: findKVsF rem.length rem
    rw [findKVsF_eq_of_le (by omega : rem.length ≤ rest.length)
      (Nat.le_refl rem.length)]

theorem eat_some_iff {lit t r : List Char} :
    eat lit t = some r ↔ (isPre lit t = true ∧ r = t.drop lit.length) := by
  unfold eat
  by_cases hp : isPre lit t = true
  · simp [hp, eq_comm]
  · simp [hp]

theorem grabDigits_length {t : List Char} {n : Nat} {r : List Char}
    (h : grabDigits t = some (n, r)) : r.length ≤ t.length := by
  unfold grabDigits at h
  by_cases hd : (t.takeWhile isDigit).length = 0
  · simp [hd] at h
  · simp only [hd, if_false, Option.some.injEq, Prod.mk.injEq] at h
    rw [← h.2, List.length_drop]
    omega

theorem eat_some_length {lit t r : List Char} (h : eat lit t = some r) :
    r.length ≤ t.length := by
  rw [(eat_some_iff.mp h).2, List.length_drop]
  omega

theorem tryBlock_length {t : List Char} {p : Purchase} {rem : List Char}
    (h : tryBlock t = some (p, rem)) : rem.length < t.length := by
  unfold tryBlock at h
  simp only [Option.bind_eq_some, Option.some.injEq, Prod.mk.injEq] at h
  obtain ⟨r1, h1, ⟨n, r2⟩, h2, r3, h3, ⟨e, r4⟩, h4, r5, h5, ⟨tk, r6⟩, h6,
    r7, h7, ⟨pr, r8⟩, h8, _hp, hrem⟩ := h
  dsimp only at h2 h3 h4 h5 h6 h7 h8 hrem
  subst hrem
  have l8 := grabDigits_length h8
  have l7 := eat_some_length h7
  have l6 := grabDigits_length h6
  have l5 := eat_some_length h5
  have l4 := grabDigits_length h4
  have l3 := eat_some_length h3
  have l2 := grabDigits_length h2
  have l1 : r1.length = t.length - purchMarker.length := by
    rw [(eat_some_iff.mp h1).2, List.length_drop]
  have w7 := length_dropWhile_le isWs r7
  have w6 := length_dropWhile_le isWs r6
  have w5 := length_dropWhile_le isWs r5
  have w4 := length_dropWhile_le isWs r4
  have w3 := length_dropWhile_le isWs r3
  have w2 := length_dropWhile_le isWs r2
  have w1 := length_dropWhile_le isWs r1
  have hpm : purchMarker.length = 11 := by decide
  have htlen : 11 ≤ t.length := by
    have := isPre_length (eat_some_iff.mp h1).1
    omega
  omega

theorem scanPurchF_eq_of_le : ∀ {f : Nat} {t : List Char} {g : Nat},
    t.length ≤ f → t.length ≤ g → scanPurchF f t = scanPurchF g t := by
  intro f
  induction f with
  | zero =>
    intro t g hf _
    have : t = [] := by
      cases t with
      | nil => rfl
      | cons c r => simp at hf
    subst this
    cases g <;> rfl
  | succ f ih =>
    intro t g hf hg
    cases t with
    | nil => cases g <;> rfl
    | cons c rest =>
      obtain ⟨g, rfl⟩ : ∃ k, g = k + 1 :=
        ⟨g - 1, by simp at hg; omega⟩
      simp only [scanPurchF]
      cases htb : tryBlock (c :: rest) with
      | none =>
        have hr : rest.length ≤ f := by simp at hf; omega
        have hr2 : rest.length ≤ g := by simp at hg; omega
        exact ih hr hr2
      | some pr =>
        obtain ⟨p, rem⟩ := pr
        have hlt := tryBlock_length htb
        simp only [List.length_cons] at hlt hf hg
        show p :: scanPurchF f rem = p :: scanPurchF g rem
        rw [ih (by omega) (by omega : rem.length ≤ g)]

/-- The defining recurrence of the purchase-block scan, fuel
eliminated. -/
theorem scanPurch_cons (c : Char) (rest : List Char) :
    scanPurch (c :: rest) =
      match tryBlock (c :: rest) with
      | some (p, rem) => p :: scanPurch rem
      | none => scanPurch rest := by
  unfold scanPurch
  simp only [List.length_cons, scanPurchF]
  cases htb : tryBlock (c :: rest) with
  | none => rfl
  | some pr =>
    obtain ⟨p, rem⟩ := pr
    have hlt := tryBlock_length htb
    simp only [List.length_cons] at hlt
    show p :: scanPurchF rest.length rem = p :: scanPurchF rem.length rem
    rw [scanPurchF_eq_of_le (by omega : rem.length ≤ rest.length)
      (Nat.le_refl rem.length)]

/-! ### Character classes and decimal digits -/

theorem isDigit_not_ws {c : Char} (h : isDigit c = true) : isWs c = false := by
  unfold isDigit at h
  unfold isWs
  simp only [Bool.and_eq_true, decide_eq_true_eq] at h
  simp only [Bool.or_eq_false_iff, decide_eq_false_iff_not]
  omega

theorem isDigit_ne_colon {c : Char} (h : isDigit c = true) :
    (c != ':') = true := by
  unfold isDigit at h
  simp only [Bool.and_eq_true, decide_eq_true_eq] at h
  simp only [bne_iff_ne, ne_eq]
  intro hc
  subst hc
  revert h
  decide

theorem ws_ne_of_not_ws {c d : Char} (hc : isWs c = true)
    (hd : isWs d = false) : (d == c) = false := by
  simp only [beq_eq_false_iff_ne, ne_eq]
  intro h
  subst h
  rw [hc] at hd
  simp at hd

theorem digitChar_isDigit {n : Nat} (h : n < 10) :
    isDigit (digitChar n) = true := by
  interval_cases n <;> decide

theorem digitVal_digitChar {n : Nat} (h : n < 10) :
    digitVal (digitChar n) = n := by
  interval_cases n <;> decide

theorem natDigits_all_digit (n : Nat) :
    ∀ c ∈ natDigits n, isDigit c = true := by
  induction n using Nat.strong_induction_on with
  | _ n ih =>
    rw [natDigits_eq]
    by_cases hn : n < 10
    · simp only [hn, if_true, List.mem_singleton]
      intro c hc
      subst hc
      exact digitChar_isDigit hn
    · simp only [hn, if_false, List.mem_append, List.mem_singleton]
      intro c hc
      rcases hc with hc | hc
      · exact ih (n / 10) (Nat.div_lt_self (by omega) (by omega)) c hc
      · subst hc
        exact digitChar_isDigit (Nat.mod_lt n (by omega))

theorem natDigits_ne_nil (n : Nat) : natDigits n ≠ [] := by
  rw [natDigits_eq]
  by_cases hn : n < 10 <;> simp [hn]

theorem digitsToNat_append (a b : List Char) :
    digitsToNat (a ++ b) =
      digitsToNat a * 10 ^ b.length + digitsToNat b := by
  induction b using List.reverseRecOn with
  | nil => simp [digitsToNat]
  | append_singleton b c ih =>
    unfold digitsToNat at *
    rw [← List.append_assoc]
    simp only [List.foldl_append, List.foldl_cons, List.foldl_nil] at *
    rw [ih]
    simp [List.length_append]
    ring

theorem digitsToNat_natDigits (n : Nat) : digitsToNat (natDigits n) = n := by
  induction n using Nat.strong_induction_on with
  | _ n ih =>
    rw [natDigits_eq]
    by_cases hn : n < 10
    · simp only [hn, if_true]
      show digitsToNat [digitChar n] = n
      unfold digitsToNat
      simp [digitVal_digitChar hn]
    · simp only [hn, if_false]
      rw [digitsToNat_append]
      rw [ih (n / 10) (Nat.div_lt_self (by omega) (by omega))]
      have : digitsToNat [digitChar (n % 10)] = n % 10 := by
        unfold digitsToNat
        simp [digitVal_digitChar (Nat.mod_lt n (by omega))]
      rw [this]
      simp only [List.length_singleton, pow_one]
      omega

/-! ### takeWhile, dropWhile and prefix facts -/

theorem takeWhile_append_all {p : Char → Bool} {a : List Char}
    (b : List Char) (h : ∀ c ∈ a, p c = true) :
    (a ++ b).takeWhile p = a ++ b.takeWhile p := by
  induction a with
  | nil => simp
  | cons c t ih =>
    have hc : p c = true := h c (by simp)
    simp only [List.cons_append, List.takeWhile_cons, hc, if_true]
    rw [ih (fun d hd => h d (by simp [hd]))]

theorem takeWhile_cons_neg {p : Char → Bool} {c : Char} (t : List Char)
    (h : p c = false) : (c :: t).takeWhile p = [] := by
  simp [List.takeWhile_cons, h]

theorem dropWhile_append_all {p : Char → Bool} {a : List Char}
    (b : List Char) (h : ∀ c ∈ a, p c = true) :
    (a ++ b).dropWhile p = b.dropWhile p := by
  induction a with
  | nil => simp
  | cons c t ih =>
    have hc : p c = true := h c (by simp)
    simp only [List.cons_append, List.dropWhile_cons, hc, if_true]
    exact ih (fun d hd => h d (by simp [hd]))

theorem dropWhile_cons_neg {p : Char → Bool} {c : Char} (t : List Char)
    (h : p c = false) : (c :: t).dropWhile p = c :: t := by
  simp [List.dropWhile_cons, h]

theorem isPre_append_self (a b : List Char) : isPre a (a ++ b) = true := by
  induction a with
  | nil => rfl
  | cons c t ih => simp [isPre, ih]

theorem isPre_nil_right {pat : List Char} (h : pat ≠ []) :
    isPre pat [] = false := by
  cases pat with
  | nil => exact absurd rfl h
  | cons c t => rfl

/-! ### strip -/

theorem strip_ws_append {pre : List Char} (l : List Char)
    (h : ∀ c ∈ pre, isWs c = true) : strip (pre ++ l) = strip l := by
  unfold strip
  rw [dropWhile_append_all l h]

theorem strip_eq_self {l : List Char} (h1 : l.dropWhile isWs = l)
    (h2 : l.reverse.dropWhile isWs = l.reverse) : strip l = l := by
  unfold strip
  rw [h1, h2, List.reverse_reverse]

theorem head_not_ws {c : Char} {t : List Char}
    (h : (c :: t).dropWhile isWs = c :: t) : isWs c = false := by
  by_cases hc : isWs c = true
  · rw [List.dropWhile_cons, if_pos hc] at h
    have hlen := congrArg List.length h
    have := length_dropWhile_le isWs t
    simp only [List.length_cons] at hlen
    omega
  · simpa using hc

/-! ### beforeOcc -/

theorem beforeOcc_of_isPre {pat t : List Char} (h : isPre pat t = true) :
    beforeOcc pat t = some [] := by
  cases t with
  | nil => simp [beforeOcc, h]
  | cons c rest => simp [beforeOcc, h]

theorem beforeOcc_clean_append {pat b : List Char} (hpat : pat ≠ [])
    (hb : isPre pat b = true) :
    ∀ {a : List Char},
      (∀ i, i < a.length → isPre pat (List.drop i (a ++ b)) = false) →
      beforeOcc pat (a ++ b) = some a := by
  intro a
  induction a with
  | nil => intro _; simpa using beforeOcc_of_isPre hb
  | cons c t ih =>
    intro ha
    have h0 : isPre pat (c :: (t ++ b)) = false := by
      simpa using ha 0 (by simp)
    show beforeOcc pat (c :: (t ++ b)) = some (c :: t)
    simp only [beforeOcc, h0, if_false]
    rw [ih (fun i hi => by
      have := ha (i + 1) (by simp only [List.length_cons]; omega)
      simpa using this)]
    rfl

theorem beforeOcc_none_iff {pat : List Char} (hpat : pat ≠ []) :
    ∀ {t : List Char},
      (beforeOcc pat t = none ↔ ∀ i, isPre pat (t.drop i) = false) := by
  intro t
  induction t with
  | nil =>
    simp [beforeOcc, isPre_nil_right hpat]
  | cons c rest ih =>
    by_cases h0 : isPre pat (c :: rest) = true
    · simp only [beforeOcc, h0, if_true]
      constructor
      · intro h; simp at h
      · intro hall
        have := hall 0
        rw [List.drop_zero, h0] at this
        simp at this
    · simp only [beforeOcc]
      rw [if_neg h0, Option.map_eq_none', ih]
      have h0f : isPre pat (c :: rest) = false := by simpa using h0
      constructor
      · intro hall i
        cases i with
        | zero => simpa using h0f
        | succ j => simpa using hall j
      · intro hall j
        have := hall (j + 1)
        simpa using this

/-! ### Python dict building -/

theorem map_fst_overwrite (rest : List (List Char × Nat)) (k : List Char)
    (v : Nat) :
    (rest.map (fun kv => if kv.1 = k then (kv.1, v) else kv)).map Prod.fst =
      rest.map Prod.fst := by
  induction rest with
  | nil => rfl
  | cons kv2 rest2 ih =>
    by_cases h2 : kv2.1 = k <;> simp [h2, ih]

theorem dictInsert_keys (d : Dict) (k : List Char) (v : Nat) :
    dictKeys (dictInsert d k v) =
      if k ∈ dictKeys d then dictKeys d else dictKeys d ++ [k] := by
  unfold dictInsert dictKeys
  by_cases hk : k ∈ d.map Prod.fst
  · simp only [hk, if_true]
    exact map_fst_overwrite d k v
  · simp [hk]

theorem foldl_dictInsert_fresh :
    ∀ {l : List (List Char × Nat)} {d : Dict},
      (l.map Prod.fst).Nodup →
      (∀ k ∈ l.map Prod.fst, k ∉ dictKeys d) →
      l.foldl (fun d kv => dictInsert d kv.1 kv.2) d = d ++ l := by
  intro l
  induction l with
  | nil => intro d _ _; simp
  | cons kv rest ih =>
    intro d hnd hfresh
    have hk : kv.1 ∉ dictKeys d := hfresh kv.1 (by simp)
    have hins : dictInsert d kv.1 kv.2 = d ++ [kv] := by
      unfold dictInsert
      rw [if_neg (show kv.1 ∉ List.map Prod.fst d from hk)]
    simp only [List.foldl_cons, hins]
    rw [ih (by simpa using hnd.of_cons)
      (fun k hkr => by
        have hne : k ≠ kv.1 := by
          simp only [List.map_cons, List.nodup_cons] at hnd
          intro he
          exact hnd.1 (he ▸ hkr)
        have hkd : k ∉ dictKeys d := hfresh k (by simp [hkr])
        unfold dictKeys
        simp only [List.map_append, List.map_singleton, List.mem_append,
          List.mem_singleton]
        rintro (h | h)
        · exact hkd h
        · exact hne h)]
    simp

theorem buildDict_nodup {l : List (List Char × Nat)}
    (h : (l.map Prod.fst).Nodup) : buildDict l = l := by
  unfold buildDict
  have := @foldl_dictInsert_fresh l [] h (by simp [dictKeys])
  simpa using this

theorem dictKeys_foldl_insert :
    ∀ (l : List (List Char × Nat)) (d : Dict),
      dictKeys (l.foldl (fun d kv => dictInsert d kv.1 kv.2) d) =
        (l.map Prod.fst).foldl
          (fun acc k => if k ∈ acc then acc else acc ++ [k]) (dictKeys d) := by
  intro l
  induction l with
  | nil => intro d; rfl
  | cons kv rest ih =>
    intro d
    simp only [List.foldl_cons, List.map_cons]
    rw [ih (dictInsert d kv.1 kv.2), dictInsert_keys]

theorem dictKeys_buildDict (l : List (List Char × Nat)) :
    dictKeys (buildDict l) = pydedup (l.map Prod.fst) := by
  unfold buildDict pydedup
  rw [dictKeys_foldl_insert]
  rfl

/-! ### Key-value extraction over rendered summary lines -/

theorem ws_ne_colon {c : Char} (h : isWs c = true) : (c != ':') = true := by
  simp only [bne_iff_ne, ne_eq]
  intro he
  subst he
  revert h
  decide

theorem tryKV_no_colon {t : List Char}
    (h : ∀ c ∈ t, (c != ':') = true) : tryKV t = none := by
  have htw : t.takeWhile (fun c => c != ':') = t := by
    have := @takeWhile_append_all (fun c => c != ':') t [] h
    simpa using this
  unfold tryKV
  by_cases hlen : (t.takeWhile (fun c => c != ':')).length = 0
  · simp [hlen]
  · simp only [hlen, if_false]
    rw [htw, List.drop_length]

theorem findKVs_nil : findKVs [] = [] := rfl

theorem findKVs_eq_of_some {t k : List Char} {v : Nat} {rem : List Char}
    (h : tryKV t = some (k, v, rem)) :
    findKVs t = (k, v) :: findKVs rem := by
  cases t with
  | nil =>
    rw [tryKV_no_colon (by intro c hc; simp at hc)] at h
    exact absurd h (by simp)
  | cons c rest => rw [findKVs_cons, h]

theorem findKVs_cons_none {c : Char} {rest : List Char}
    (h : tryKV (c :: rest) = none) :
    findKVs (c :: rest) = findKVs rest := by
  rw [findKVs_cons, h]

theorem findKVs_all_ws {pre : List Char} (h : ∀ c ∈ pre, isWs c = true) :
    findKVs pre = [] := by
  induction pre with
  | nil => rfl
  | cons c rest ih =>
    rw [findKVs_cons_none
      (tryKV_no_colon (fun d hd => ws_ne_colon (h d hd)))]
    exact ih (fun d hd => h d (by simp [hd]))

theorem tryKV_render {pre l : List Char} (v : Nat) (X : List Char)
    (hpre : ∀ c ∈ pre, isWs c = true) (hl : GoodLabel l) :
    tryKV ((pre ++ l) ++ ':' :: ' ' :: (natDigits v ++ '\n' :: X)) =
      some (l, v, '\n' :: X) := by
  obtain ⟨hne, hcolon, hlead, htrail⟩ := hl
  have hA : ∀ c ∈ pre ++ l, (c != ':') = true := by
    intro c hc
    rcases List.mem_append.mp hc with hc | hc
    · exact ws_ne_colon (hpre c hc)
    · exact hcolon c hc
  have htw : ((pre ++ l) ++ ':' :: ' ' :: (natDigits v ++ '\n' :: X)).takeWhile
      (fun c => c != ':') = pre ++ l := by
    rw [takeWhile_append_all _ hA, takeWhile_cons_neg _ (by simp)]
    simp
  have hAlen : (pre ++ l).length ≠ 0 := by
    simp only [List.length_append, ne_eq]
    intro hz
    exact hne (List.eq_nil_of_length_eq_zero (by omega))
  obtain ⟨d, ds, hnd⟩ :
      ∃ d ds, natDigits v = d :: ds :=
    match hv : natDigits v, natDigits_ne_nil v with
    | d :: ds, _ => ⟨d, ds, rfl⟩
  have hddig : ∀ c ∈ natDigits v, isDigit c = true := natDigits_all_digit v
  unfold tryKV
  rw [htw]
  simp only [hAlen, if_false]
  have hdrop : ((pre ++ l) ++ ':' :: ' ' :: (natDigits v ++ '\n' :: X)).drop
      (pre ++ l).length = ':' :: ' ' :: (natDigits v ++ '\n' :: X) :=
    List.drop_left _ _
  rw [hdrop]
  dsimp only
  have hws : (' ' :: (natDigits v ++ '\n' :: X)).dropWhile isWs =
      natDigits v ++ '\n' :: X := by
    rw [List.dropWhile_cons, if_pos (by decide)]
    rw [hnd]
    exact dropWhile_cons_neg _ (isDigit_not_ws (hddig d (by simp [hnd])))
  rw [hws]
  have htd : (natDigits v ++ '\n' :: X).takeWhile isDigit = natDigits v := by
    rw [takeWhile_append_all _ hddig, takeWhile_cons_neg _ (by decide)]
    simp
  rw [htd]
  have hdlen : (natDigits v).length ≠ 0 := by
    rw [hnd]; simp
  simp only [hdlen, if_false]
  rw [List.drop_left]
  have hstrip : strip (pre ++ l) = l := by
    rw [strip_ws_append l hpre]
    exact strip_eq_self hlead htrail
  rw [hstrip, digitsToNat_natDigits]

theorem findKVs_render :
    ∀ {pairs : List (List Char × Nat)} {pre : List Char},
      (∀ c ∈ pre, isWs c = true) →
      (∀ kv ∈ pairs, GoodLabel kv.1) →
      findKVs (pre ++ renderLines pairs) = pairs := by
  intro pairs
  induction pairs with
  | nil =>
    intro pre hpre _
    show findKVs (pre ++ renderLines []) = []
    rw [show renderLines [] = [] from rfl, List.append_nil]
    exact findKVs_all_ws hpre
  | cons kv rest ih =>
    intro pre hpre hgood
    obtain ⟨l, v⟩ := kv
    have hassoc : pre ++ renderLines ((l, v) :: rest) =
        (pre ++ l) ++ ':' :: ' ' :: (natDigits v ++ '\n' :: renderLines rest) := by
      show pre ++ (renderLine (l, v) ++ renderLines rest) = _
      unfold renderLine
      simp [List.append_assoc]
    rw [hassoc]
    rw [findKVs_eq_of_some
      (tryKV_render v (renderLines rest) hpre (hgood (l, v) (by simp)))]
    have : findKVs ('\n' :: renderLines rest) =
        findKVs (['\n'] ++ renderLines rest) := rfl
    rw [this, ih (by decide) (fun kv2 h2 => hgood kv2 (by simp [h2]))]

/-! ### Purchase-block extraction over rendered blocks -/

theorem isPre_head_false {a : Char} {as : List Char} {b : Char}
    {bs : List Char} (h : (a == b) = false) :
    isPre (a :: as) (b :: bs) = false := by
  simp [isPre, h]

theorem tryBlock_none_of_not_isPre {t : List Char}
    (h : isPre purchMarker t = false) : tryBlock t = none := by
  unfold tryBlock eat
  rw [h]
  rfl

theorem tryBlock_nil : tryBlock [] = none :=
  tryBlock_none_of_not_isPre (isPre_nil_right (by decide))

theorem scanPurch_eq_of_some {t : List Char} {p : Purchase}
    {rem : List Char} (h : tryBlock t = some (p, rem)) :
    scanPurch t = p :: scanPurch rem := by
  cases t with
  | nil => rw [tryBlock_nil] at h; exact absurd h (by simp)
  | cons c rest => rw [scanPurch_cons, h]

theorem scanPurch_cons_none {c : Char} {rest : List Char}
    (h : tryBlock (c :: rest) = none) :
    scanPurch (c :: rest) = scanPurch rest := by
  rw [scanPurch_cons, h]

theorem scanPurch_junk :
    ∀ {junk : List Char} (tail : List Char),
      (∀ i, i < junk.length →
        isPre purchMarker (List.drop i (junk ++ tail)) = false) →
      scanPurch (junk ++ tail) = scanPurch tail := by
  intro junk
  induction junk with
  | nil => intro tail _; rfl
  | cons c j ih =>
    intro tail h
    have h0 : isPre purchMarker (c :: (j ++ tail)) = false := by
      simpa using h 0 (by simp)
    show scanPurch (c :: (j ++ tail)) = scanPurch tail
    rw [scanPurch_cons_none (tryBlock_none_of_not_isPre h0)]
    exact ih tail (fun i hi => by
      have := h (i + 1) (by simp only [List.length_cons]; omega)
      simpa using this)

theorem eat_self_append (lit X : List Char) : eat lit (lit ++ X) = some X := by
  unfold eat
  rw [if_pos (isPre_append_self lit X), List.drop_left]

theorem dropWhile_marker {m : List Char} {c : Char} {mrest : List Char}
    (Y : List Char) (hm : m = c :: mrest) (hc : isWs c = false) :
    (m ++ Y).dropWhile isWs = m ++ Y := by
  subst hm
  exact dropWhile_cons_neg _ hc

theorem grabDigits_render (v : Nat) {c : Char} (hc : isDigit c = false)
    (X : List Char) :
    grabDigits (natDigits v ++ c :: X) = some (v, c :: X) := by
  unfold grabDigits
  have htd : (natDigits v ++ c :: X).takeWhile isDigit = natDigits v := by
    rw [takeWhile_append_all _ (natDigits_all_digit v),
      takeWhile_cons_neg _ hc]
    simp
  rw [htd]
  have : (natDigits v).length ≠ 0 := by
    have := natDigits_ne_nil v
    intro hz
    exact this (List.eq_nil_of_length_eq_zero hz)
  simp only [this, if_false]
  rw [List.drop_left, digitsToNat_natDigits]

theorem wsDrop_digits (v : Nat) {c : Char} (hc : isDigit c = false)
    (X : List Char) :
    (' ' :: (natDigits v ++ c :: X)).dropWhile isWs =
      natDigits v ++ c :: X := by
  rw [List.dropWhile_cons, if_pos (by decide)]
  obtain ⟨d, ds, hnd⟩ : ∃ d ds, natDigits v = d :: ds :=
    match hv : natDigits v, natDigits_ne_nil v with
    | d :: ds, _ => ⟨d, ds, rfl⟩
  rw [hnd]
  exact dropWhile_cons_neg _
    (isDigit_not_ws (natDigits_all_digit v d (by simp [hnd])))

theorem tryBlock_render (p : Purchase) (X : List Char) :
    tryBlock (renderBlock p ++ X) = some (p, '\n' :: X) := by
  obtain ⟨n, e, tk, pr⟩ := p
  have hassoc : renderBlock ⟨n, e, tk, pr⟩ ++ X =
      purchMarker ++ ' ' :: (natDigits n ++
      '\n' :: (ethMarker ++ ' ' :: (natDigits e ++
      '\n' :: (tokensMarker ++ ' ' :: (natDigits tk ++
      '\n' :: (priceMarker ++ ' ' :: (natDigits pr ++ '\n' :: X))))))) := by
    unfold renderBlock
    simp [List.append_assoc]
  rw [hassoc]
  unfold tryBlock
  rw [eat_self_append]
  simp only [Option.some_bind]
  rw [wsDrop_digits n (by decide) _, grabDigits_render n (by decide) _]
  simp only [Option.some_bind]
  rw [List.dropWhile_cons, if_pos (by decide),
    dropWhile_marker _ (show ethMarker = 'E' :: ("TH spent:").data from rfl)
      (by decide),
    eat_self_append]
  simp only [Option.some_bind]
  rw [wsDrop_digits e (by decide) _, grabDigits_render e (by decide) _]
  simp only [Option.some_bind]
  rw [List.dropWhile_cons, if_pos (by decide),
    dropWhile_marker _
      (show tokensMarker = 'T' :: ("okens received:").data from rfl)
      (by decide),
    eat_self_append]
  simp only [Option.some_bind]
  rw [wsDrop_digits tk (by decide) _, grabDigits_render tk (by decide) _]
  simp only [Option.some_bind]
  rw [List.dropWhile_cons, if_pos (by decide),
    dropWhile_marker _
      (show priceMarker = 'C' :: ("urrent price:").data from rfl)
      (by decide),
    eat_self_append]
  simp only [Option.some_bind]
  rw [wsDrop_digits pr (by decide) _, grabDigits_render pr (by decide) _]
  simp only [Option.some_bind]

theorem scanPurch_newline (x : List Char) :
    scanPurch ('\n' :: x) = scanPurch x := by
  apply scanPurch_cons_none
  apply tryBlock_none_of_not_isPre
  rw [show purchMarker = 'P' :: ("urchase #:").data from rfl]
  exact isPre_head_false (by decide)

theorem scanPurch_renderBlocks : ∀ ts : List Purchase,
    scanPurch (renderBlocks ts) = ts := by
  intro ts
  induction ts with
  | nil => rfl
  | cons p rest ih =>
    show scanPurch (renderBlock p ++ renderBlocks rest) = p :: rest
    rw [scanPurch_eq_of_some (tryBlock_render p (renderBlocks rest)),
      scanPurch_newline, ih]

/-! ### Locating the summary section in rendered text -/

theorem searchSummary_at_head {REST g : List Char}
    (h : beforeOcc closeMarker (REST.dropWhile isWs) = some g) :
    searchSummary (openMarker ++ REST) = some g := by
  have hcons : openMarker ++ REST =
      '-' :: (("------ TOKEN SALE SUMMARY -------").data ++ REST) := rfl
  have hop : isPre openMarker
      ('-' :: (("------ TOKEN SALE SUMMARY -------").data ++ REST)) = true := by
    rw [← hcons]
    exact isPre_append_self _ _
  have hdrop : ('-' :: (("------ TOKEN SALE SUMMARY -------").data ++
      REST)).drop openMarker.length = REST := by
    rw [← hcons]
    exact List.drop_left _ _
  rw [hcons]
  show searchSummary ('-' :: _) = some g
  unfold searchSummary
  rw [if_pos hop, hdrop, h]

theorem dropWhile_renderLines {pairs : List (List Char × Nat)}
    (hlabels : ∀ kv ∈ pairs, GoodLabel kv.1) (B : List Char) :
    (renderLines pairs ++ (closeLine ++ B)).dropWhile isWs =
      renderLines pairs ++ (closeLine ++ B) := by
  cases pairs with
  | nil =>
    show ([] ++ (closeLine ++ B)).dropWhile isWs = [] ++ (closeLine ++ B)
    simp only [List.nil_append]
    exact dropWhile_marker _
      (show closeLine = '-' ::
        ("------ BONDING CURVE INTEGRITY -------\n").data from rfl)
      (by decide)
  | cons kv rest =>
    obtain ⟨l, v⟩ := kv
    have hgl := hlabels (l, v) (by simp)
    obtain ⟨hne, _, hlead, _⟩ := hgl
    obtain ⟨c, l2, hl⟩ : ∃ c l2, l = c :: l2 :=
      match l, hne with
      | c :: l2, _ => ⟨c, l2, rfl⟩
    have hcws : isWs c = false := head_not_ws (hl ▸ hlead)
    show ((renderLine (l, v) ++ renderLines rest) ++ (closeLine ++ B)).dropWhile
        isWs = _
    unfold renderLine
    rw [hl]
    show (c :: (l2 ++ ':' :: ' ' :: (natDigits v ++ ['\n']) ++
      renderLines rest ++ (closeLine ++ B))).dropWhile isWs = _
    rw [dropWhile_cons_neg _ hcws]
    simp [renderLines, renderLine, List.append_assoc]

theorem searchSummary_renderText {pairs : List (List Char × Nat)}
    {ts : List Purchase} (hlabels : ∀ kv ∈ pairs, GoodLabel kv.1)
    (hclean : ∀ i, i < (renderLines pairs).length →
      isPre closeMarker
        (List.drop i (renderLines pairs ++ (closeLine ++ renderBlocks ts))) =
        false) :
    searchSummary (renderText pairs ts) = some (renderLines pairs) := by
  have hshape : renderText pairs ts = openMarker ++
      ('\n' :: (renderLines pairs ++ (closeLine ++ renderBlocks ts))) := by
    unfold renderText renderHead
    simp [List.append_assoc]
  rw [hshape]
  apply searchSummary_at_head
  rw [List.dropWhile_cons, if_pos (by decide),
    dropWhile_renderLines hlabels (renderBlocks ts)]
  apply beforeOcc_clean_append (by decide)
  · have : closeLine ++ renderBlocks ts = closeMarker ++
        ((" -------\n").data ++ renderBlocks ts) := by
      show (closeMarker ++ (" -------\n").data) ++ renderBlocks ts = _
      simp [List.append_assoc]
    rw [this]
    exact isPre_append_self _ _
  · exact hclean

/-- When the summary regex matches, `parse_test_output` returns the
scraped dict and the purchase scan of the full text. -/
theorem parse_eq_of_search {t s : List Char}
    (h : searchSummary t = some s) :
    parse_test_output t = some ⟨buildDict (findKVs s), scanPurch t⟩ := by
  unfold parse_test_output
  rw [h]

theorem parse_none_iff_search_none (t : List Char) :
    parse_test_output t = none ↔ searchSummary t = none := by
  unfold parse_test_output
  cases searchSummary t <;> simp

/-- Master extraction lemma: on a canonical well-formed text the parser
returns exactly the rendered pairs and purchases. -/
theorem parse_renderText_eq {pairs : List (List Char × Nat)}
    {ts : List Purchase}
    (hlabels : ∀ kv ∈ pairs, GoodLabel kv.1)
    (hnodup : (pairs.map Prod.fst).Nodup)
    (hclean : ∀ i, i < (renderLines pairs).length →
      isPre closeMarker
        (List.drop i (renderLines pairs ++ (closeLine ++ renderBlocks ts))) =
        false)
    (hjunk : ∀ i, i < (renderHead pairs).length →
      isPre purchMarker (List.drop i (renderText pairs ts)) = false) :
    parse_test_output (renderText pairs ts) = some ⟨pairs, ts⟩ := by
  rw [parse_eq_of_search (searchSummary_renderText hlabels hclean)]
  have hkv : findKVs (renderLines pairs) = pairs := by
    have := @findKVs_render pairs [] (by simp) hlabels
    simpa using this
  have hsc : scanPurch (renderText pairs ts) = ts := by
    show scanPurch (renderHead pairs ++ renderBlocks ts) = ts
    rw [scanPurch_junk (renderBlocks ts)
      (fun i hi => hjunk i hi), scanPurch_renderBlocks]
  rw [hkv, buildDict_nodup hnodup, hsc]

/-! ### When can the summary regex match at all -/

theorem exists_isPre_dropWhile_iff {c0 : Char} {p0 : List Char}
    (hc0 : isWs c0 = false) :
    ∀ (s : List Char),
      ((∃ j, isPre (c0 :: p0) ((s.dropWhile isWs).drop j) = true) ↔
        (∃ j, isPre (c0 :: p0) (s.drop j) = true)) := by
  intro s
  induction s with
  | nil => simp
  | cons c s2 ih =>
    by_cases hws : isWs c = true
    · rw [List.dropWhile_cons, if_pos hws, ih]
      constructor
      · rintro ⟨j, hj⟩
        exact ⟨j + 1, by simpa [List.drop_succ_cons] using hj⟩
      · rintro ⟨j, hj⟩
        cases j with
        | zero =>
          rw [List.drop_zero,
            isPre_head_false (ws_ne_of_not_ws hws hc0)] at hj
          simp at hj
        | succ j2 =>
          exact ⟨j2, by simpa [List.drop_succ_cons] using hj⟩
    · rw [List.dropWhile_cons, if_neg hws]

theorem close_exists_dropWhile_iff (s : List Char) :
    ((∃ j, isPre closeMarker ((s.dropWhile isWs).drop j) = true) ↔
      (∃ j, isPre closeMarker (s.drop j) = true)) := by
  have hcm : closeMarker =
      '-' :: ("------ BONDING CURVE INTEGRITY").data := rfl
  rw [hcm]
  exact exists_isPre_dropWhile_iff (by decide) s

theorem beforeOcc_some_exists {pat t : List Char} (hpat : pat ≠ [])
    {g : List Char} (h : beforeOcc pat t = some g) :
    ∃ j, isPre pat (t.drop j) = true := by
  by_contra hno
  push_neg at hno
  have hall : ∀ j, isPre pat (t.drop j) = false := by
    intro j
    cases hb : isPre pat (t.drop j) with
    | false => rfl
    | true => exact absurd hb (hno j)
  rw [(beforeOcc_none_iff hpat).mpr hall] at h
  simp at h

theorem hasSummarySection_cons (c : Char) (rest : List Char) :
    hasSummarySection (c :: rest) ↔
      ((isPre openMarker (c :: rest) = true ∧
        ∃ j, isPre closeMarker
          ((c :: rest).drop (openMarker.length + j)) = true) ∨
       hasSummarySection rest) := by
  unfold hasSummarySection
  constructor
  · rintro ⟨i, j, h1, h2⟩
    cases i with
    | zero =>
      left
      refine ⟨by simpa using h1, j, ?_⟩
      simpa using h2
    | succ i2 =>
      right
      refine ⟨i2, j, by simpa [List.drop_succ_cons] using h1, ?_⟩
      rw [show i2 + 1 + openMarker.length + j =
        (i2 + openMarker.length + j) + 1 by omega,
        List.drop_succ_cons] at h2
      exact h2
  · rintro (⟨h1, j, h2⟩ | ⟨i, j, h1, h2⟩)
    · refine ⟨0, j, by simpa using h1, ?_⟩
      simpa using h2
    · refine ⟨i + 1, j, by simpa [List.drop_succ_cons] using h1, ?_⟩
      rw [show i + 1 + openMarker.length + j =
        (i + openMarker.length + j) + 1 by omega,
        List.drop_succ_cons]
      exact h2

theorem searchSummary_cons (c : Char) (rest : List Char) :
    searchSummary (c :: rest) =
      if isPre openMarker (c :: rest) = true then
        match beforeOcc closeMarker
            (((c :: rest).drop openMarker.length).dropWhile isWs) with
        | some g => some g
        | none => searchSummary rest
      else searchSummary rest := rfl

theorem searchSummary_none_iff :
    ∀ (t : List Char), (searchSummary t = none ↔ ¬ hasSummarySection t) := by
  intro t
  induction t with
  | nil =>
    apply iff_of_true rfl
    rintro ⟨i, j, h1, _⟩
    rw [List.drop_nil, isPre_nil_right (show openMarker ≠ [] by decide)] at h1
    simp at h1
  | cons c rest ih =>
    by_cases hop : isPre openMarker (c :: rest) = true
    · rcases hbo : beforeOcc closeMarker
          (((c :: rest).drop openMarker.length).dropWhile isWs) with _ | g
      · have hstep : searchSummary (c :: rest) = searchSummary rest := by
          rw [searchSummary_cons, if_pos hop, hbo]
        have hnoclose : ¬ ∃ j, isPre closeMarker
            ((c :: rest).drop (openMarker.length + j)) = true := by
          rintro ⟨j, hj⟩
          have hall := (beforeOcc_none_iff
            (show closeMarker ≠ [] by decide)).mp hbo
          have hex : ∃ j2, isPre closeMarker
              ((((c :: rest).drop openMarker.length).dropWhile isWs).drop j2) =
                true := by
            apply (close_exists_dropWhile_iff _).mpr
            refine ⟨j, ?_⟩
            rw [List.drop_drop]
            first
            | exact hj
            | (rw [show j + openMarker.length = openMarker.length + j
                by omega]; exact hj)
          obtain ⟨j2, hj2⟩ := hex
          rw [hall j2] at hj2
          simp at hj2
        rw [hstep, ih, hasSummarySection_cons]
        constructor
        · intro hnr
          rintro (⟨_, hex⟩ | hr)
          · exact hnoclose hex
          · exact hnr hr
        · intro hn hr
          exact hn (Or.inr hr)
      · have hstep : searchSummary (c :: rest) = some g := by
          rw [searchSummary_cons, if_pos hop, hbo]
        rw [hstep]
        apply iff_of_false (by simp)
        intro hn
        apply hn
        obtain ⟨j, hj⟩ := beforeOcc_some_exists
          (show closeMarker ≠ [] by decide) hbo
        obtain ⟨j2, hj2⟩ := (close_exists_dropWhile_iff _).mp ⟨j, hj⟩
        refine ⟨0, j2, by simpa using hop, ?_⟩
        rw [List.drop_drop] at hj2
        first
        | (rw [show 0 + openMarker.length + j2 = j2 + openMarker.length
            by omega]; exact hj2)
        | (rw [show 0 + openMarker.length + j2 = openMarker.length + j2
            by omega]; exact hj2)
    · have hstep : searchSummary (c :: rest) = searchSummary rest := by
        rw [searchSummary_cons, if_neg hop]
      have hopf : isPre openMarker (c :: rest) = false := by
        simpa using hop
      rw [hstep, ih, hasSummarySection_cons]
      constructor
      · intro hnr
        rintro (⟨h1, _⟩ | hr)
        · rw [hopf] at h1; simp at h1
        · exact hnr hr
      · intro hn hr
        exact hn (Or.inr hr)

/-! ### The summary table pipeline -/

theorem create_summary_table_cons (r : ScenResult) (rs : List ScenResult) :
    create_summary_table (r :: rs) =
      summaryRowSpec r :: create_summary_table rs := rfl

theorem create_summary_table_closed (results : List ScenResult) :
    create_summary_table results = results.map summaryRowSpec := by
  induction results with
  | nil => rfl
  | cons r rs ih =>
    rw [List.map_cons, ← ih, create_summary_table_cons]

theorem summaryRowSpec_cols (r : ScenResult) :
    (summaryRowSpec r).map Prod.fst = summaryCols := rfl

/-- Any of the six metrics that is absent from a summary mapping shows
up as the integer zero in the corresponding cell of the enriched
row. -/
theorem summaryRowSpec_zero_fill (r : ScenResult) {lbl col : List Char}
    (hmem : (lbl, col) ∈ metricCols)
    (habs : dictFind r.summary lbl = none) :
    rowFind (summaryRowSpec r) col = some (Val.n 0) := by
  have hget : ∀ l2, dictFind r.summary l2 = none →
      dictGet r.summary l2 0 = 0 := by
    intro l2 h2
    unfold dictGet
    rw [h2]
    rfl
  simp only [metricCols, List.mem_cons, List.not_mem_nil, or_false,
    Prod.mk.injEq] at hmem
  rcases hmem with ⟨rfl, rfl⟩ | ⟨rfl, rfl⟩ | ⟨rfl, rfl⟩ | ⟨rfl, rfl⟩ |
    ⟨rfl, rfl⟩ | ⟨rfl, rfl⟩
  · rw [show rowFind (summaryRowSpec r) colInitWei =
      some (Val.n (dictGet r.summary lblStarting 0)) from rfl, hget _ habs]
  · rw [show rowFind (summaryRowSpec r) colFinalWei =
      some (Val.n (dictGet r.summary lblFinal 0)) from rfl, hget _ habs]
  · rw [show rowFind (summaryRowSpec r) colPriceInc =
      some (Val.n (dictGet r.summary lblPriceInc 0)) from rfl, hget _ habs]
  · rw [show rowFind (summaryRowSpec r) colTokensSold =
      some (Val.n (dictGet r.summary lblTokensSold 0)) from rfl, hget _ habs]
  · rw [show rowFind (summaryRowSpec r) colEthRaised =
      some (convHuman (10 ^ 18) (Val.n (dictGet r.summary lblEthRaised 0)))
      from rfl, hget _ habs]
    rfl
  · rw [show rowFind (summaryRowSpec r) colAvgPrice =
      some (Val.n (dictGet r.summary lblAvgPrice 0)) from rfl, hget _ habs]

/-- Positional form of the closed-form table equality: the i-th table
row is the enriched row of the i-th scenario result, for any batch. -/
theorem create_summary_table_get (results : List ScenResult) (i : Nat)
    (h1 : i < results.length)
    (h2 : i < (create_summary_table results).length) :
    (create_summary_table results).get ⟨i, h2⟩ =
      summaryRowSpec (results.get ⟨i, h1⟩) := by
  have hq1 : (create_summary_table results).get? i =
      some ((create_summary_table results).get ⟨i, h2⟩) :=
    List.get?_eq_get h2
  have hq2 : (create_summary_table results).get? i =
      some (summaryRowSpec (results.get ⟨i, h1⟩)) := by
    rw [create_summary_table_closed]
    rw [List.get?_map, List.get?_eq_get h1, Option.map_some']
  exact Option.some.inj (hq1.symm.trans hq2)

/-! ### The scenario loop -/

theorem run_scenario_tests_eq
    (runner : List (List Char) → Env → CompletedProcess) (env0 : Env)
    (ss : List Scen) :
    run_scenario_tests runner env0 ss = ss.filterMap (fun s =>
      (parse_test_output (run_forge_test runner env0
        (s.test_name.getD defaultTestName) (s.params.getD []))).map
        (fun d => ⟨s.name.getD defaultScenName, d.summary, d.purchases,
          run_forge_test runner env0 (s.test_name.getD defaultTestName)
            (s.params.getD [])⟩)) := by
  induction ss with
  | nil => rfl
  | cons s rest ih =>
    rw [List.filterMap_cons]
    unfold run_scenario_tests
    cases hp : parse_test_output (run_forge_test runner env0
        (s.test_name.getD defaultTestName) (s.params.getD [])) with
    | none => simp only [hp, Option.map_none']; exact ih
    | some d => simp only [hp, Option.map_some']; rw [ih]

/-! ### The purchase table pipeline -/

theorem allPurchaseRows_nil {results : List ScenResult}
    (h : ∀ r ∈ results, r.purchases = []) :
    allPurchaseRows results = [] := by
  unfold allPurchaseRows
  induction results with
  | nil => rfl
  | cons r rs ih =>
    rw [List.map_cons, h r (by simp)]
    show (List.map
      (fun r => List.map (fun p => purchaseRow p r.scenario_name) r.purchases)
      rs).join = []
    exact ih (fun r2 h2 => h r2 (by simp [h2]))

theorem create_purchase_dataframe_empty {results : List ScenResult}
    (h : allPurchaseRows results = []) :
    create_purchase_dataframe results = Except.error keyEth := by
  unfold create_purchase_dataframe
  rw [h]
  rfl

theorem main_purchase_stage_none {results : List ScenResult}
    (h : allPurchaseRows results = []) :
    main_purchase_stage results = none := by
  unfold main_purchase_stage
  rw [h]
  rfl

/-! ### Claim theorems -/

/-- C1: for every raw text consisting of a well-formed summary block
(labels non-empty, colon-free, whitespace-trimmed and pairwise
distinct, with no stray close-marker or purchase-marker occurrence
before the intended ones) and exactly the rendered purchase blocks,
`parse_test_output` returns a summary mapping whose keys are exactly
the labels present between the two summary markers, and a purchase
list containing exactly the rendered blocks in their order of
appearance in the text. -/
theorem c1_extraction_correctness
    (pairs : List (List Char × Nat)) (ts : List Purchase)
    (hlabels : ∀ kv ∈ pairs, GoodLabel kv.1)
    (hnodup : (pairs.map Prod.fst).Nodup)
    (hclean : ∀ i, i < (renderLines pairs).length →
      isPre closeMarker
        (List.drop i (renderLines pairs ++ (closeLine ++ renderBlocks ts))) =
        false)
    (hjunk : ∀ i, i < (renderHead pairs).length →
      isPre purchMarker (List.drop i (renderText pairs ts)) = false) :
    ∃ r : ParseResult,
      parse_test_output (renderText pairs ts) = some r ∧
      dictKeys r.summary = pairs.map Prod.fst ∧
      r.purchases = ts :=
  ⟨⟨pairs, ts⟩, parse_renderText_eq hlabels hnodup hclean hjunk, rfl, rfl⟩

/-- Witness for C1 at three concrete summary labels and two concrete
purchase blocks. -/
theorem c1_extraction_correctness_witness :
    ∃ r : ParseResult,
      parse_test_output (renderText wPairs wTs) = some r ∧
      dictKeys r.summary = wPairs.map Prod.fst ∧
      r.purchases = wTs :=
  c1_extraction_correctness wPairs wTs (by decide) (by decide) (by decide)
    (by decide)

/-- C2: on the concrete raw text with the six summary lines and the two
purchase blocks (1, 1000, 20, 100) and (2, 2000, 10, 200),
`parse_test_output` yields exactly those six summary keys with their
values and exactly those two purchase records, whose derived
tokens-per-ETH values are 0.02 and 0.005. -/
theorem c2_concrete_scenario :
    parse_test_output c2text =
      some ⟨[(lblStarting, 100), (lblFinal, 400), (lblPriceInc, 300),
             (lblTokensSold, 1000000000000000000000),
             (lblEthRaised, 50000000000000000000), (lblAvgPrice, 50)],
            [⟨1, 1000, 20, 100⟩, ⟨2, 2000, 10, 200⟩]⟩ ∧
    (parse_test_output c2text).map
        (fun r => plot_tokens_per_eth r.purchases) =
      some [PFloat.fin (0.02 : ℚ), PFloat.fin (0.005 : ℚ)] := by
  have h1 : parse_test_output c2text =
      some ⟨[(lblStarting, 100), (lblFinal, 400), (lblPriceInc, 300),
             (lblTokensSold, 1000000000000000000000),
             (lblEthRaised, 50000000000000000000), (lblAvgPrice, 50)],
            [⟨1, 1000, 20, 100⟩, ⟨2, 2000, 10, 200⟩]⟩ := by decide
  refine ⟨h1, ?_⟩
  rw [h1, Option.map_some']
  show some (plot_tokens_per_eth [⟨1, 1000, 20, 100⟩, ⟨2, 2000, 10, 200⟩]) = _
  unfold plot_tokens_per_eth pandasDiv
  norm_num

/-- Counterexample for C3: a raw text in which the opening summary
marker is present (at position 0) yet `parse_test_output` returns
`none`, because no closing marker follows — locating the opening marker
alone is not sufficient. -/
theorem c3_open_marker_not_sufficient :
    parse_test_output openOnlyText = none ∧
    isPre openMarker (List.drop 0 openOnlyText) = true := by
  constructor
  · decide
  · decide

/-- C3 amended: `parse_test_output` returns `none` exactly when the
whole summary section — the opening marker followed, at or after its
end, by the closing marker — cannot be located; and on a text with a
summary section but zero purchase blocks it returns the summary
mapping together with the empty purchase list. -/
theorem c3_parse_none_characterization :
    (∀ t, (parse_test_output t = none ↔ ¬ hasSummarySection t)) ∧
    parse_test_output zeroPurchText =
      some ⟨[(lblStarting, 100), (lblFinal, 400)], []⟩ := by
  constructor
  · intro t
    rw [parse_none_iff_search_none]
    exact searchSummary_none_iff t
  · decide

/-- Counterexample for C4: a purchase row with positive
`tokens_received` and zero `eth_spent` receives positive infinity, not
a not-a-number sentinel. -/
theorem c4_zero_eth_gives_inf :
    plot_tokens_per_eth [⟨1, 0, 20, 100⟩] = [PFloat.inf] ∧
    PFloat.inf ≠ PFloat.nan := by
  constructor
  · decide
  · decide

/-- C4 amended: computing the per-event tokens-per-ETH column never
raises (the column function is total); a row with zero `eth_spent`
receives a non-finite sentinel — infinity when `tokens_received` is
positive, NaN only for zero over zero — and every other row receives
the quotient of its two fields. -/
theorem c4_tokens_per_eth_spec (rows : List Purchase) :
    (plot_tokens_per_eth rows).length = rows.length ∧
    ∀ i (h1 : i < rows.length)
      (h2 : i < (plot_tokens_per_eth rows).length),
      (plot_tokens_per_eth rows).get ⟨i, h2⟩ =
        (if (rows.get ⟨i, h1⟩).eth_spent = 0 then
          (if (rows.get ⟨i, h1⟩).tokens_received = 0 then PFloat.nan
           else PFloat.inf)
         else
           PFloat.fin (((rows.get ⟨i, h1⟩).tokens_received : ℚ) /
             ((rows.get ⟨i, h1⟩).eth_spent : ℚ))) := by
  constructor
  · simp [plot_tokens_per_eth]
  · intro i h1 h2
    simp only [plot_tokens_per_eth, List.get_map]
    rfl

/-- Witness for C4 at a one-row table with zero ETH spent. -/
theorem c4_tokens_per_eth_spec_witness :
    (plot_tokens_per_eth [⟨1, 0, 20, 100⟩]).length = 1 ∧
    (plot_tokens_per_eth [⟨1, 0, 20, 100⟩]).get ⟨0, by decide⟩ =
      PFloat.inf := by
  refine ⟨(c4_tokens_per_eth_spec [⟨1, 0, 20, 100⟩]).1, ?_⟩
  rw [(c4_tokens_per_eth_spec [⟨1, 0, 20, 100⟩]).2 0 (by decide) (by decide)]
  decide

/-- Counterexample for C5: for a scenario that reported 2 ETH (in wei)
raised, the final summary table holds the converted value 2 in the
`ETH Raised` column — the raw wei integer has been overwritten, not
kept alongside a new column. -/
theorem c5_eth_raised_overwritten :
    (create_summary_table [c5res]).map
        (fun row => rowFind row colEthRaised) = [some (Val.q 2)] ∧
    (Val.q 2 : Val) ≠ Val.n (2 * 10 ^ 18) := by
  constructor
  · have hv : convHuman (10 ^ 18) (Val.n (2 * 10 ^ 18)) = Val.q 2 := by
      unfold convHuman
      dsimp only
      rw [if_neg (by norm_num)]
      norm_num
    rw [create_summary_table_closed]
    show [rowFind (summaryRowSpec c5res) colEthRaised] = [some (Val.q 2)]
    rw [show rowFind (summaryRowSpec c5res) colEthRaised =
      some (convHuman (10 ^ 18) (Val.n (2 * 10 ^ 18))) from rfl, hv]
  · intro h
    exact absurd h (by simp)

/-- C5 amended: `create_summary_table` equals, row for row, the closed
form `summaryRowSpec`: the three decimal human-scale columns
`Initial Price (ETH)`, `Final Price (ETH)` and `Tokens Sold (millions)`
are appended as new columns and the six other original raw integer
columns are left unchanged, but the `ETH Raised` column is overwritten
in place by its wei-to-ETH conversion, discarding the raw integer. -/
theorem c5_summary_table_closed_form (results : List ScenResult) :
    create_summary_table results = results.map summaryRowSpec :=
  create_summary_table_closed results

/-- C6: every row of the summary table carries the same fixed column
set `summaryCols` whatever labels were present in the scenario; in any
batch, any of the six metrics that is absent from a scenario summary
mapping is filled with the integer zero in that scenario's table row
at this aggregation stage; and the parser itself never defaults — the
keys of a parsed summary mapping are exactly the labels scraped from
the text (first occurrence order, duplicates collapsed). -/
theorem c6_summary_table_rectangular (results : List ScenResult) :
    ((create_summary_table results).map (fun row => row.map Prod.fst) =
      results.map (fun _ => summaryCols)) ∧
    (∀ (i : Nat) (h1 : i < results.length)
      (h2 : i < (create_summary_table results).length)
      (lbl col : List Char), (lbl, col) ∈ metricCols →
      dictFind (results.get ⟨i, h1⟩).summary lbl = none →
      rowFind ((create_summary_table results).get ⟨i, h2⟩) col =
        some (Val.n 0)) ∧
    (∀ s : List Char, dictKeys (buildDict (findKVs s)) =
      pydedup ((findKVs s).map Prod.fst)) := by
  refine ⟨?_, ?_, fun s => dictKeys_buildDict (findKVs s)⟩
  · rw [create_summary_table_closed, List.map_map]
    apply List.map_congr_left
    intro r _
    exact summaryRowSpec_cols r
  · intro i h1 h2 lbl col hmem habs
    rw [create_summary_table_get results i h1 h2]
    exact summaryRowSpec_zero_fill _ hmem habs

/-- Witness for C6: a one-scenario batch whose summary lacks the
`Final price` label gets a zero `Final Price (wei)` cell. -/
theorem c6_summary_table_rectangular_witness :
    rowFind ((create_summary_table
      [⟨("A").data, [(lblStarting, 5)], [], []⟩]).get ⟨0, by decide⟩)
      colFinalWei = some (Val.n 0) :=
  (c6_summary_table_rectangular
    [⟨("A").data, [(lblStarting, 5)], [], []⟩]).2.1
    0 (by decide) (by decide) lblFinal colFinalWei (by decide) (by decide)

/-- C7: `run_scenario_tests` is exactly a filter-map over the scenario
list in declared order — a scenario whose output fails to parse is
skipped while every parseable scenario contributes its tagged result in
position — and the summary table built from the results carries their
scenario names row for row in the same order. -/
theorem c7_scenario_isolation
    (runner : List (List Char) → Env → CompletedProcess) (env0 : Env)
    (ss : List Scen) :
    run_scenario_tests runner env0 ss = ss.filterMap (fun s =>
      (parse_test_output (run_forge_test runner env0
        (s.test_name.getD defaultTestName) (s.params.getD []))).map
        (fun d => ⟨s.name.getD defaultScenName, d.summary, d.purchases,
          run_forge_test runner env0 (s.test_name.getD defaultTestName)
            (s.params.getD [])⟩)) ∧
    (create_summary_table (run_scenario_tests runner env0 ss)).map
        (fun row => rowFind row colScenario) =
      (run_scenario_tests runner env0 ss).map
        (fun r => some (Val.s r.scenario_name)) := by
  refine ⟨run_scenario_tests_eq runner env0 ss, ?_⟩
  rw [create_summary_table_closed, List.map_map]
  apply List.map_congr_left
  intro r _
  rfl

/-- Counterexample for C8: two harness runs with identical captured
output but different exit statuses produce identical return values of
`run_forge_test` — the non-zero exit status is not surfaced in any
field of the run result, which is the bare stdout string. -/
theorem c8_exit_code_not_surfaced :
    run_forge_test (fun _ _ => sampleProc 1) [] defaultTestName [] =
      run_forge_test (fun _ _ => sampleProc 0) [] defaultTestName [] ∧
    (sampleProc 1).returncode ≠ (sampleProc 0).returncode := by
  constructor
  · rfl
  · decide

/-- C8 amended: on any harness exit status `run_forge_test` returns the
captured standard output unchanged and never raises; the exit status is
only printed to the console and is not part of the return value, so the
result is invariant under changing the exit status. -/
theorem c8_runner_returns_stdout
    (runner : List (List Char) → Env → CompletedProcess) (env0 : Env)
    (test_name : List Char) (params : Params) :
    run_forge_test runner env0 test_name params =
      (runner (buildCmd test_name) (buildEnv env0 params)).stdout ∧
    (∀ (out err : List Char) (c1 c2 : Int),
      run_forge_test (fun _ _ => ⟨out, err, c1⟩) env0 test_name params =
        run_forge_test (fun _ _ => ⟨out, err, c2⟩) env0 test_name params) :=
  ⟨rfl, fun _ _ _ _ => rfl⟩

/-- Counterexample for C9: on a raw text whose two purchase blocks both
carry the number 7, the parsed records have `purchase_num` values 7 and
7 — not a unique 1-based sequence index. -/
theorem c9_purchase_num_not_sequential :
    (parse_test_output dupNumText).map
        (fun r => r.purchases.map Purchase.purchase_num) = some [7, 7] ∧
    ¬ ([7, 7] : List Nat).Nodup := by
  constructor
  · decide
  · decide

/-- C9 amended: `purchase_num` is scraped verbatim from each block, and
the records appear in the order the blocks appear in the text — so the
1-based unique indexing holds exactly when the harness output provides
it, and is not enforced by the parser. -/
theorem c9_purchase_order_verbatim
    (pairs : List (List Char × Nat)) (ts : List Purchase)
    (hlabels : ∀ kv ∈ pairs, GoodLabel kv.1)
    (hnodup : (pairs.map Prod.fst).Nodup)
    (hclean : ∀ i, i < (renderLines pairs).length →
      isPre closeMarker
        (List.drop i (renderLines pairs ++ (closeLine ++ renderBlocks ts))) =
        false)
    (hjunk : ∀ i, i < (renderHead pairs).length →
      isPre purchMarker (List.drop i (renderText pairs ts)) = false) :
    (parse_test_output (renderText pairs ts)).map ParseResult.purchases =
      some ts := by
  rw [parse_renderText_eq hlabels hnodup hclean hjunk]
  rfl

/-- Witness for C9 at concrete pairs and purchases. -/
theorem c9_purchase_order_verbatim_witness :
    (parse_test_output (renderText wPairs wTs)).map ParseResult.purchases =
      some wTs :=
  c9_purchase_order_verbatim wPairs wTs (by decide) (by decide) (by decide)
    (by decide)

/-- C10: for a non-empty result batch in which every scenario has an
empty purchase list, `create_purchase_dataframe` raises (a `KeyError`
on the absent `eth_spent` column of the empty, column-less frame)
instead of returning an empty purchase table, and the main pipeline
avoids the error only by returning early — producing no purchase frame
and writing no report. -/
theorem c10_empty_purchase_error (results : List ScenResult)
    (hne : results ≠ [])
    (hemp : ∀ r ∈ results, r.purchases = []) :
    create_purchase_dataframe results = Except.error keyEth ∧
    main_purchase_stage results = none := by
  have h := allPurchaseRows_nil hemp
  exact ⟨create_purchase_dataframe_empty h, main_purchase_stage_none h⟩

/-- Witness for C10 at a one-scenario batch with no purchases. -/
theorem c10_empty_purchase_error_witness :
    create_purchase_dataframe [⟨("A").data, [(lblStarting, 5)], [], []⟩] =
      Except.error keyEth ∧
    main_purchase_stage [⟨("A").data, [(lblStarting, 5)], [], []⟩] = none :=
  c10_empty_purchase_error [⟨("A").data, [(lblStarting, 5)], [], []⟩]
    (by decide) (by decide)

end SaleAnalyzer

